import Mathlib

/-!
Verification of the `ossutil` command handlers `lib/lcb.go` (paginated
cloud-box listing with retry) and `lib/append_file.go` (append upload).

The Go code is embedded shallowly: every external effect (SDK call, `os`
call, option lookup) is an oracle value supplied in an environment record,
and each command handler is a pure function from that environment to its
returned error (`Except String`) together with a trace of the observable
calls it issued, in order.  Machine integers (`int64`) are modelled as
`Int`; the code under study performs no overflowing arithmetic on them.
-/

namespace Ossutil

/-! ## Listing data model (`lib/lcb.go`)

`oss.ListCloudBoxResult` carries the fields the command reads: `Prefix`
(named `pfx` here, since that identifier is unavailable), `NextMarker`,
`CloudBoxes` and `IsTruncated`. -/

structure CloudBox where
  id : String
  name : String
  owner : String
  region : String
  controlEndpoint : String
  dataEndpoint : String
deriving DecidableEq, Repr

structure ListCloudBoxResult where
  pfx : String
  nextMarker : String
  cloudBoxes : List CloudBox
  isTruncated : Bool
deriving DecidableEq, Repr

/-- The pair of options the listing loop threads: `oss.Prefix(...)` and
`oss.Marker(...)` (lcb.go:131-132, 138-139). -/
structure ListOptions where
  pfx : String
  marker : String
deriving DecidableEq, Repr

/-- Whether an `Except` value is a success, mirroring Go's `err == nil`. -/
def exceptIsOk {ε α : Type} : Except ε α → Bool
  | .ok _ => true
  | .error _ => false

/-! ## The retry wrapper `LcbCommand.ossListCloudBoxesRetry` (lcb.go:157-165)

```go
func (lc *LcbCommand) ossListCloudBoxesRetry(client *oss.Client, options ...oss.Option) (oss.ListCloudBoxResult, error) {
    retryTimes, _ := GetInt(OptionRetryTimes, lc.command.options)
    for i := 1; ; i++ {
        lbr, err := client.ListCloudBoxes(options...)
        if err == nil || int64(i) >= retryTimes {
            return lbr, err
        }
    }
}
```

`listCloudBoxes i opts` is the oracle outcome of the i-th SDK call (1-based)
when issued with options `opts`.  Beside the Go return value the model
returns the log of calls made: attempt index paired with the options that
attempt was issued with. -/

def ossListCloudBoxesRetryFrom (retryTimes : Int)
    (listCloudBoxes : Nat → ListOptions → Except String ListCloudBoxResult)
    (opts : ListOptions) (i : Nat) :
    Except String ListCloudBoxResult × List (Nat × ListOptions) :=
  let lbr := listCloudBoxes i opts
  if exceptIsOk lbr = true ∨ (i : Int) ≥ retryTimes then
    (lbr, [(i, opts)])
  else
    let rest := ossListCloudBoxesRetryFrom retryTimes listCloudBoxes opts (i + 1)
    (rest.1, (i, opts) :: rest.2)
termination_by (retryTimes - i).toNat
decreasing_by
  rename_i h
  rw [not_or] at h
  omega

def ossListCloudBoxesRetry (retryTimes : Int)
    (listCloudBoxes : Nat → ListOptions → Except String ListCloudBoxResult)
    (opts : ListOptions) :
    Except String ListCloudBoxResult × List (Nat × ListOptions) :=
  ossListCloudBoxesRetryFrom retryTimes listCloudBoxes opts 1

/-- One-step unfolding of the retry loop. -/
theorem ossListCloudBoxesRetryFrom_eq (retryTimes : Int)
    (f : Nat → ListOptions → Except String ListCloudBoxResult)
    (opts : ListOptions) (i : Nat) :
    ossListCloudBoxesRetryFrom retryTimes f opts i =
      if exceptIsOk (f i opts) = true ∨ (i : Int) ≥ retryTimes then
        (f i opts, [(i, opts)])
      else
        ((ossListCloudBoxesRetryFrom retryTimes f opts (i + 1)).1,
         (i, opts) :: (ossListCloudBoxesRetryFrom retryTimes f opts (i + 1)).2) := by
  rw [ossListCloudBoxesRetryFrom]

/-- Every call logged by the retry loop, started at any attempt index, was
issued with the loop's fixed options. -/
theorem retryFrom_opts_fixed (retryTimes : Int)
    (f : Nat → ListOptions → Except String ListCloudBoxResult)
    (opts : ListOptions) (i : Nat) :
    ∀ e ∈ (ossListCloudBoxesRetryFrom retryTimes f opts i).2, e.2 = opts := by
  have key : ∀ n : Nat, ∀ i : Nat, (retryTimes - (i : Int)).toNat ≤ n →
      ∀ e ∈ (ossListCloudBoxesRetryFrom retryTimes f opts i).2, e.2 = opts := by
    intro n
    induction n with
    | zero =>
        intro i hn e he
        rw [ossListCloudBoxesRetryFrom_eq] at he
        have hi : (i : Int) ≥ retryTimes := by omega
        simp [hi] at he
        simp [he]
    | succ n ih =>
        intro i hn e he
        rw [ossListCloudBoxesRetryFrom_eq] at he
        by_cases hc : exceptIsOk (f i opts) = true ∨ (i : Int) ≥ retryTimes
        · simp [hc] at he
          simp [he]
        · simp [hc] at he
          rcases he with he | he
          · simp [he]
          · rw [not_or] at hc
            exact ih (i + 1) (by omega) e he
  exact key (retryTimes - (i : Int)).toNat i le_rfl

/-- If every attempt from `i` up to (but excluding) `retryTimes` fails, the
loop started at `i ≤ retryTimes` returns the outcome of attempt
`retryTimes` (the final allowed attempt). -/
theorem retryFrom_reaches_last (retryTimes : Int)
    (f : Nat → ListOptions → Except String ListCloudBoxResult)
    (opts : ListOptions) :
    ∀ n : Nat, ∀ i : Nat, 1 ≤ i → (i : Int) ≤ retryTimes →
      (retryTimes - (i : Int)).toNat ≤ n →
      (∀ k : Nat, i ≤ k → (k : Int) < retryTimes → exceptIsOk (f k opts) = false) →
      (ossListCloudBoxesRetryFrom retryTimes f opts i).1 = f retryTimes.toNat opts := by
  intro n
  induction n with
  | zero =>
      intro i hi1 hile hn _
      rw [ossListCloudBoxesRetryFrom_eq]
      have hi : (i : Int) ≥ retryTimes := by omega
      have heq : retryTimes.toNat = i := by omega
      simp [hi, heq]
  | succ n ih =>
      intro i hi1 hile hn hfail
      rw [ossListCloudBoxesRetryFrom_eq]
      by_cases hlt : (i : Int) < retryTimes
      · have hf : exceptIsOk (f i opts) = false := hfail i le_rfl hlt
        have hc : ¬(exceptIsOk (f i opts) = true ∨ (i : Int) ≥ retryTimes) := by
          rw [not_or]
          constructor
          · simp [hf]
          · omega
        rw [if_neg hc]
        exact ih (i + 1) (by omega) (by omega) (by omega)
          (fun k hk hklt => hfail k (by omega) hklt)
      · have hi : (i : Int) ≥ retryTimes := by omega
        have heq : retryTimes.toNat = i := by omega
        simp [hi, heq]

/-- An attempt with index above the starting one is only in the log if its
predecessor attempt failed. -/
theorem retryFrom_only_on_error (retryTimes : Int)
    (f : Nat → ListOptions → Except String ListCloudBoxResult)
    (opts : ListOptions) :
    ∀ n : Nat, ∀ i : Nat, (retryTimes - (i : Int)).toNat ≤ n →
      ∀ j o, (j, o) ∈ (ossListCloudBoxesRetryFrom retryTimes f opts i).2 → i < j →
      exceptIsOk (f (j - 1) opts) = false := by
  intro n
  induction n with
  | zero =>
      intro i hn j o hj hij
      rw [ossListCloudBoxesRetryFrom_eq] at hj
      have hi : (i : Int) ≥ retryTimes := by omega
      simp [hi] at hj
      omega
  | succ n ih =>
      intro i hn j o hj hij
      rw [ossListCloudBoxesRetryFrom_eq] at hj
      by_cases hc : exceptIsOk (f i opts) = true ∨ (i : Int) ≥ retryTimes
      · simp [hc] at hj
        omega
      · simp [hc] at hj
        rcases hj with hj | hj
        · omega
        · rw [not_or] at hc
          by_cases hjj : i + 1 < j
          · exact ih (i + 1) (by omega) j o hj hjj
          · have : j = i + 1 := by
              have := (retryFrom_opts_fixed retryTimes f opts (i + 1)) (j, o) hj
              -- the log of the loop started at i+1 only holds indices ≥ i+1
              -- (established below); here we only need j = i + 1 from bounds
              omega
            subst this
            simpa using (Bool.not_eq_true _).mp hc.1

/-- Indices in the retry log are at least the starting attempt index. -/
theorem retryFrom_index_lower_bound (retryTimes : Int)
    (f : Nat → ListOptions → Except String ListCloudBoxResult)
    (opts : ListOptions) :
    ∀ n : Nat, ∀ i : Nat, (retryTimes - (i : Int)).toNat ≤ n →
      ∀ j o, (j, o) ∈ (ossListCloudBoxesRetryFrom retryTimes f opts i).2 → i ≤ j := by
  intro n
  induction n with
  | zero =>
      intro i hn j o hj
      rw [ossListCloudBoxesRetryFrom_eq] at hj
      have hi : (i : Int) ≥ retryTimes := by omega
      simp [hi] at hj
      omega
  | succ n ih =>
      intro i hn j o hj
      rw [ossListCloudBoxesRetryFrom_eq] at hj
      by_cases hc : exceptIsOk (f i opts) = true ∨ (i : Int) ≥ retryTimes
      · simp [hc] at hj
        omega
      · simp [hc] at hj
        rcases hj with hj | hj
        · omega
        · rw [not_or] at hc
          have := ih (i + 1) (by omega) j o hj
          omega

/-- Under persistent failure the number of logged attempts, starting at
attempt `i`, is `max 1 (retryTimes - i + 1)`. -/
theorem retryFrom_all_fail_length (retryTimes : Int)
    (f : Nat → ListOptions → Except String ListCloudBoxResult)
    (opts : ListOptions)
    (hfail : ∀ k : Nat, 1 ≤ k → exceptIsOk (f k opts) = false) :
    ∀ n : Nat, ∀ i : Nat, 1 ≤ i → (retryTimes - (i : Int)).toNat ≤ n →
      ((ossListCloudBoxesRetryFrom retryTimes f opts i).2.length : Int) =
        max 1 (retryTimes - (i : Int) + 1) := by
  intro n
  induction n with
  | zero =>
      intro i hi1 hn
      rw [ossListCloudBoxesRetryFrom_eq]
      have hi : (i : Int) ≥ retryTimes := by omega
      simp [hi]
      try omega
  | succ n ih =>
      intro i hi1 hn
      rw [ossListCloudBoxesRetryFrom_eq]
      by_cases hlt : (i : Int) < retryTimes
      · have hc : ¬(exceptIsOk (f i opts) = true ∨ (i : Int) ≥ retryTimes) := by
          rw [not_or]
          constructor
          · simp [hfail i hi1]
          · omega
        rw [if_neg hc]
        have := ih (i + 1) (by omega) (by omega)
        simp only [List.length_cons]
        push_cast
        push_cast at this
        omega
      · have hi : (i : Int) ≥ retryTimes := by omega
        simp [hi]
        try omega

/-- C2: for `retryTimes ≥ 1`, a page fetch whose attempts `1 .. retryTimes-1`
all fail returns the outcome of attempt `retryTimes` — the successful result
with no error when that attempt succeeds, and that final attempt's error when
it fails too; moreover any attempt beyond the first is issued only after the
previous attempt returned an error. -/
theorem lcb_retry_count_semantics (retryTimes : Int)
    (listCloudBoxes : Nat → ListOptions → Except String ListCloudBoxResult)
    (opts : ListOptions) (hrt : 1 ≤ retryTimes) :
    ((∀ k : Nat, 1 ≤ k → (k : Int) < retryTimes →
        exceptIsOk (listCloudBoxes k opts) = false) →
      (ossListCloudBoxesRetry retryTimes listCloudBoxes opts).1
        = listCloudBoxes retryTimes.toNat opts)
    ∧ (∀ j o, (j, o) ∈ (ossListCloudBoxesRetry retryTimes listCloudBoxes opts).2 →
        1 < j → exceptIsOk (listCloudBoxes (j - 1) opts) = false) := by
  constructor
  · intro hfail
    exact retryFrom_reaches_last retryTimes listCloudBoxes opts
      (retryTimes - 1).toNat 1 le_rfl (by exact_mod_cast hrt) (by omega)
      (fun k hk hklt => hfail k hk hklt)
  · intro j o hj hij
    exact retryFrom_only_on_error retryTimes listCloudBoxes opts
      (retryTimes - 1).toNat 1 (by omega) j o hj hij

theorem lcb_retry_count_semantics_witness :
    (1 : Int) ≤ 3 ∧
    (ossListCloudBoxesRetry 3
        (fun k _ => if k < 3 then .error "boom"
                    else .ok (⟨"", "", [], false⟩ : ListCloudBoxResult))
        ⟨"", ""⟩).1 = .ok (⟨"", "", [], false⟩ : ListCloudBoxResult) := by
  have h := lcb_retry_count_semantics 3
    (fun k _ => if k < 3 then .error "boom"
                else .ok (⟨"", "", [], false⟩ : ListCloudBoxResult))
    ⟨"", ""⟩ (by norm_num)
  refine ⟨by norm_num, ?_⟩
  have h1 := h.1 (by
    intro k hk1 hk3
    have hk : k < 3 := by exact_mod_cast hk3
    interval_cases k <;> rfl)
  simpa using h1

/-- C7: within one page fetch, every retry attempt is logged with exactly the
options (prefix and marker) the fetch was invoked with: the cursor is
unchanged across retries of the same page, and nothing a failing attempt
returns can influence a later attempt's options. -/
theorem lcb_retry_cursor_unchanged (retryTimes : Int)
    (listCloudBoxes : Nat → ListOptions → Except String ListCloudBoxResult)
    (opts : ListOptions) :
    ∀ e ∈ (ossListCloudBoxesRetry retryTimes listCloudBoxes opts).2, e.2 = opts :=
  retryFrom_opts_fixed retryTimes listCloudBoxes opts 1

theorem lcb_retry_cursor_unchanged_witness :
    ((2 : Nat), (⟨"p", "m"⟩ : ListOptions)) ∈
        (ossListCloudBoxesRetry 2 (fun _ _ => .error "transient")
          (⟨"p", "m"⟩ : ListOptions)).2 ∧
    ((2 : Nat), (⟨"p", "m"⟩ : ListOptions)).2 = (⟨"p", "m"⟩ : ListOptions) := by
  have hmem : ((2 : Nat), (⟨"p", "m"⟩ : ListOptions)) ∈
      (ossListCloudBoxesRetry 2 (fun _ _ => .error "transient")
        (⟨"p", "m"⟩ : ListOptions)).2 := by
    simp [ossListCloudBoxesRetry, ossListCloudBoxesRetryFrom_eq, exceptIsOk]
  exact ⟨hmem,
    lcb_retry_cursor_unchanged 2 (fun _ _ => .error "transient") ⟨"p", "m"⟩ _ hmem⟩

/-- C10: for `retryTimes ≤ 1` (including zero and negative values) the page
fetch makes exactly one attempt and returns its outcome unconditionally; in
general, under persistent failure, the number of attempts is
`max 1 retryTimes`. -/
theorem lcb_retry_single_attempt_bound (retryTimes : Int)
    (listCloudBoxes : Nat → ListOptions → Except String ListCloudBoxResult)
    (opts : ListOptions) :
    (retryTimes ≤ 1 →
      ossListCloudBoxesRetry retryTimes listCloudBoxes opts
        = (listCloudBoxes 1 opts, [(1, opts)]))
    ∧ ((∀ k : Nat, 1 ≤ k → exceptIsOk (listCloudBoxes k opts) = false) →
      ((ossListCloudBoxesRetry retryTimes listCloudBoxes opts).2.length : Int)
        = max 1 retryTimes) := by
  constructor
  · intro h1
    rw [ossListCloudBoxesRetry, ossListCloudBoxesRetryFrom_eq]
    have hg : ((1 : Nat) : Int) ≥ retryTimes := by omega
    rw [if_pos (Or.inr hg)]
  · intro hfail
    have h := retryFrom_all_fail_length retryTimes listCloudBoxes opts hfail
      (retryTimes - 1).toNat 1 le_rfl (by omega)
    rw [ossListCloudBoxesRetry, h]
    congr 1
    push_cast
    ring

theorem lcb_retry_single_attempt_bound_witness :
    (0 : Int) ≤ 1 ∧
    ossListCloudBoxesRetry 0 (fun _ _ => .error "boom") ⟨"", ""⟩
      = (.error "boom", [(1, ⟨"", ""⟩)]) ∧
    ((ossListCloudBoxesRetry 0 (fun _ _ => .error "boom") ⟨"", ""⟩).2.length : Int)
      = max 1 0 := by
  have h := lcb_retry_single_attempt_bound 0 (fun _ _ => .error "boom") ⟨"", ""⟩
  exact ⟨by norm_num, h.1 (by norm_num), h.2 (fun k hk => rfl)⟩

/-! ## The listing command `LcbCommand.RunCommand` (lcb.go:106-155)

```go
func (lc *LcbCommand) RunCommand() error {
    prefix := ""
    if len(lc.command.args) > 0 {
        cloudURL, err := CloudURLFromString(lc.command.args[0], "")
        if err != nil { return err }
        prefix = cloudURL.bucket
    }
    limitedNum, _ := GetInt(OptionLimitedNum, lc.command.options)
    vmarker, _ := GetString(OptionMarker, lc.command.options)
    if vmarker, err := lc.command.getRawMarker(vmarker); err != nil {
        return fmt.Errorf("invalid marker: %s, marker is not url encoded, %s", vmarker, err.Error())
    }
    var num int64
    num = 0
    client, err := lc.command.ossClient("")
    if err != nil { return err }
    pre := oss.Prefix(prefix)
    marker := oss.Marker(vmarker)
    for limitedNum < 0 || num < limitedNum {
        lcr, err := lc.ossListCloudBoxesRetry(client, pre, marker)
        if err != nil { return err }
        pre = oss.Prefix(lcr.Prefix)
        marker = oss.Marker(lcr.NextMarker)
        if num == 0 && len(lcr.CloudBoxes) > 0 { ...print header... }
        for _, box := range lcr.CloudBoxes {
            if limitedNum >= 0 && num >= limitedNum { break }
            ...print row...
            num++
        }
        if !lcr.IsTruncated { break }
    }
    return nil
}
```

Note the Go shadowing on line 118: the decoded marker returned by
`getRawMarker` is bound to a variable scoped to the `if` statement, so the
loop below uses the still-encoded `vmarker`. -/

/-- The bucket/object pair produced by `CloudURLFromString` /
`GetCloudUrl`. -/
structure CloudUrl where
  bucket : String
  object : String
deriving DecidableEq, Repr

/-- Value of a hexadecimal digit character, `none` for non-hex. -/
def hexDigitVal (c : Char) : Option Nat :=
  if '0' ≤ c ∧ c ≤ '9' then some (c.toNat - '0'.toNat)
  else if 'a' ≤ c ∧ c ≤ 'f' then some (c.toNat - 'a'.toNat + 10)
  else if 'A' ≤ c ∧ c ≤ 'F' then some (c.toNat - 'A'.toNat + 10)
  else none

/-- URL query unescaping over a character list: `%XX` hex escapes decode to
the escaped byte, `+` decodes to a space, a truncated or non-hex escape is
an error (`none`). -/
def unescapeChars : List Char → Option (List Char)
  | [] => some []
  | '%' :: a :: b :: rest =>
    match hexDigitVal a, hexDigitVal b with
    | some ha, some hb =>
        (unescapeChars rest).map (fun r => Char.ofNat (16 * ha + hb) :: r)
    | _, _ => none
  | '%' :: _ => none
  | '+' :: rest => (unescapeChars rest).map (fun r => ' ' :: r)
  | c :: rest => (unescapeChars rest).map (fun r => c :: r)

/-- Modelled from the spec: `Command.getRawMarker` is declared outside the
two files under study; per the spec, "a marker value must be URL-decodable;
malformed markers are rejected before any request is issued".  It URL-decodes
the marker option and fails on a malformed escape. -/
def getRawMarker (marker : String) : Except String String :=
  match unescapeChars marker.toList with
  | some cs => .ok (String.mk cs)
  | none => .error "invalid URL escape"

/-- Observable steps of the listing command, in program order: building the
service client, issuing one (retry-wrapped) page request with the options it
carries, printing the header line, and printing one item row. -/
inductive LcbEvent where
  | clientBuild
  | listRequest (opts : ListOptions)
  | printHeader
  | printRow (box : CloudBox)
deriving DecidableEq, Repr

/-- The inner row loop (lcb.go:143-149): prints boxes while the limit allows,
threading `num`.  Returns the boxes printed and the updated `num`. -/
def emitBoxes (limitedNum : Int) : Int → List CloudBox → List CloudBox × Int
  | num, [] => ([], num)
  | num, b :: bs =>
    if limitedNum ≥ 0 ∧ num ≥ limitedNum then ([], num)
    else
      let rest := emitBoxes limitedNum (num + 1) bs
      (b :: rest.1, rest.2)

/-- The listing loop (lcb.go:133-153).  `pages` is the oracle of outcomes of
the successive retry-wrapped page fetches, in order; the model consumes one
entry per fetch.  Returns the command's error outcome and the trace of
events. -/
def lcbLoop (limitedNum : Int) :
    List (Except String ListCloudBoxResult) → Int → ListOptions →
    Except String Unit × List LcbEvent
  | pages, num, opts =>
    if limitedNum < 0 ∨ num < limitedNum then
      match pages with
      | [] => (.ok (), [])
      | .error e :: _ => (.error e, [.listRequest opts])
      | .ok lcr :: rest =>
        let headerEvs : List LcbEvent :=
          if num = 0 ∧ 0 < lcr.cloudBoxes.length then [.printHeader] else []
        let emitted := emitBoxes limitedNum num lcr.cloudBoxes
        let rowEvs := emitted.1.map LcbEvent.printRow
        if lcr.isTruncated then
          let next := lcbLoop limitedNum rest emitted.2 ⟨lcr.pfx, lcr.nextMarker⟩
          (next.1, .listRequest opts :: (headerEvs ++ rowEvs ++ next.2))
        else
          (.ok (), .listRequest opts :: (headerEvs ++ rowEvs))
    else (.ok (), [])

/-- Environment of one `lcb` run: oracle outcomes of the external calls the
command makes, in the order the code makes them.  `argUrl` is `none` when no
argument was given, otherwise the outcome of `CloudURLFromString`;
`pages` is the oracle of the successive retry-wrapped page fetch outcomes. -/
structure LcbEnv where
  argUrl : Option (Except String CloudUrl)
  limitedNum : Int
  vmarker : String
  clientResult : Except String Unit
  pages : List (Except String ListCloudBoxResult)

/-- `LcbCommand.RunCommand` (lcb.go:106-155) as a function from the
environment to the returned error and the event trace. -/
def lcbRunCommand (env : LcbEnv) : Except String Unit × List LcbEvent :=
  match env.argUrl with
  | some (.error e) => (.error e, [])
  | other =>
    let pre : String :=
      match other with
      | some (.ok url) => url.bucket
      | _ => ""
    match getRawMarker env.vmarker with
    | .error e =>
        (.error ("invalid marker: , marker is not url encoded, " ++ e), [])
    | .ok _ =>
      -- the decoded value is discarded: Go shadows it inside the `if`
      match env.clientResult with
      | .error e => (.error e, [.clientBuild])
      | .ok _ =>
        let res := lcbLoop env.limitedNum env.pages 0 ⟨pre, env.vmarker⟩
        (res.1, .clientBuild :: res.2)

/-- Is an event an item row print? -/
def isRowEvent : LcbEvent → Bool
  | .printRow _ => true
  | _ => false

/-- Is an event a page request? -/
def isRequestEvent : LcbEvent → Bool
  | .listRequest _ => true
  | _ => false

/-- Number of item rows printed in a trace. -/
def printedRows (evs : List LcbEvent) : Nat := evs.countP isRowEvent

/-- Number of page requests issued in a trace. -/
def requestCount (evs : List LcbEvent) : Nat := evs.countP isRequestEvent

/-- Marker option of the first page request in a trace, if any. -/
def firstRequestMarker : List LcbEvent → Option String
  | [] => none
  | .listRequest o :: _ => some o.marker
  | _ :: rest => firstRequestMarker rest

/-- Total number of items across a list of pages. -/
def totalBoxes (ps : List ListCloudBoxResult) : Nat :=
  (ps.map (fun p => p.cloudBoxes.length)).sum

@[simp] theorem totalBoxes_nil : totalBoxes [] = 0 := rfl

@[simp] theorem totalBoxes_cons (p : ListCloudBoxResult) (ps : List ListCloudBoxResult) :
    totalBoxes (p :: ps) = p.cloudBoxes.length + totalBoxes ps := by
  simp [totalBoxes]

@[simp] theorem printedRows_nil : printedRows [] = 0 := rfl

@[simp] theorem printedRows_cons (e : LcbEvent) (evs : List LcbEvent) :
    printedRows (e :: evs) = printedRows evs + (if isRowEvent e then 1 else 0) :=
  List.countP_cons _ _ _

@[simp] theorem printedRows_append (a b : List LcbEvent) :
    printedRows (a ++ b) = printedRows a + printedRows b :=
  List.countP_append _ _ _

@[simp] theorem printedRows_map_row (boxes : List CloudBox) :
    printedRows (boxes.map LcbEvent.printRow) = boxes.length := by
  induction boxes with
  | nil => rfl
  | cons b bs ih => simp [isRowEvent, ih]

@[simp] theorem requestCount_nil : requestCount [] = 0 := rfl

@[simp] theorem requestCount_cons (e : LcbEvent) (evs : List LcbEvent) :
    requestCount (e :: evs) = requestCount evs + (if isRequestEvent e then 1 else 0) :=
  List.countP_cons _ _ _

@[simp] theorem requestCount_append (a b : List LcbEvent) :
    requestCount (a ++ b) = requestCount a + requestCount b :=
  List.countP_append _ _ _

@[simp] theorem requestCount_map_row (boxes : List CloudBox) :
    requestCount (boxes.map LcbEvent.printRow) = 0 := by
  induction boxes with
  | nil => rfl
  | cons b bs ih => simp [isRequestEvent, ih]

/-- With a negative limit the row loop prints every box of the page and
advances `num` by their number. -/
theorem emitBoxes_neg (limitedNum : Int) (hneg : limitedNum < 0) :
    ∀ (boxes : List CloudBox) (num : Int),
      emitBoxes limitedNum num boxes = (boxes, num + boxes.length) := by
  intro boxes
  induction boxes with
  | nil => intro num; simp [emitBoxes]
  | cons b bs ih =>
      intro num
      have hc : ¬(limitedNum ≥ 0 ∧ num ≥ limitedNum) := by omega
      simp only [emitBoxes, if_neg hc, ih (num + 1), List.length_cons]
      refine Prod.ext rfl ?_
      push_cast
      ring

/-- With a non-negative limit the row loop prints
`min (limitedNum - num)` and the page size many boxes, advancing `num` by
that count. -/
theorem emitBoxes_nonneg (limitedNum : Int) (hpos : 0 ≤ limitedNum) :
    ∀ (boxes : List CloudBox) (num : Int), num ≤ limitedNum →
      ((emitBoxes limitedNum num boxes).1.length : Int)
          = min (limitedNum - num) boxes.length
      ∧ (emitBoxes limitedNum num boxes).2
          = num + (emitBoxes limitedNum num boxes).1.length := by
  intro boxes
  induction boxes with
  | nil =>
      intro num h
      simp [emitBoxes]
      omega
  | cons b bs ih =>
      intro num h
      by_cases hc : limitedNum ≥ 0 ∧ num ≥ limitedNum
      · simp [emitBoxes, hc]
        omega
      · have hlt : num < limitedNum := by omega
        have hrec := ih (num + 1) (by omega)
        simp only [emitBoxes, if_neg hc, List.length_cons]
        push_cast
        push_cast at hrec
        omega

@[simp] theorem printedRows_headerEvs (c : Prop) [Decidable c] :
    printedRows (if c then [LcbEvent.printHeader] else []) = 0 := by
  split <;> simp [isRowEvent]

@[simp] theorem requestCount_headerEvs (c : Prop) [Decidable c] :
    requestCount (if c then [LcbEvent.printHeader] else []) = 0 := by
  split <;> simp [isRequestEvent]

/-- Row count of the listing loop over an all-successful page sequence whose
last page is the only non-truncated one: with a negative limit every item is
printed, otherwise `min (limitedNum - num) (total items)` are. -/
theorem lcbLoop_rows (limitedNum : Int) :
    ∀ (ps : List ListCloudBoxResult) (num : Int) (opts : ListOptions),
      (limitedNum < 0 ∨ num ≤ limitedNum) →
      (∀ p ∈ ps.dropLast, p.isTruncated = true) →
      ∀ (hne : ps ≠ []), (ps.getLast hne).isTruncated = false →
      (printedRows (lcbLoop limitedNum (ps.map Except.ok) num opts).2 : Int)
        = if limitedNum < 0 then (totalBoxes ps : Int)
          else min (limitedNum - num) (totalBoxes ps) := by
  intro ps
  induction ps with
  | nil => intro num opts _ _ hne _; exact absurd rfl hne
  | cons p rest ih =>
      intro num opts hnum htrunc hne hlast
      by_cases henter : limitedNum < 0 ∨ num < limitedNum
      · by_cases htp : p.isTruncated = true
        · -- a truncated page cannot be the last one
          have hrest : rest ≠ [] := by
            intro h0
            subst h0
            rw [List.getLast_singleton, htp] at hlast
            exact Bool.noConfusion hlast
          have hdrop : (p :: rest).dropLast = p :: rest.dropLast :=
            List.dropLast_cons_of_ne_nil hrest
          have htrunc' : ∀ q ∈ rest.dropLast, q.isTruncated = true := by
            intro q hq
            exact htrunc q (by rw [hdrop]; exact List.mem_cons_of_mem _ hq)
          have hlast' : (rest.getLast hrest).isTruncated = false := by
            rw [← List.getLast_cons hrest (a := p)]
            exact hlast
          simp only [List.map_cons, lcbLoop, if_pos henter, htp, if_true,
            printedRows_cons, printedRows_append, printedRows_map_row,
            printedRows_headerEvs, isRowEvent]
          by_cases hneg : limitedNum < 0
          · -- negative limit: everything is printed
            have hemit := emitBoxes_neg limitedNum hneg p.cloudBoxes num
            have hrec := ih (emitBoxes limitedNum num p.cloudBoxes).2
              ⟨p.pfx, p.nextMarker⟩ (Or.inl hneg) htrunc' hrest hlast'
            rw [if_pos hneg] at hrec ⊢
            rw [hemit] at hrec ⊢
            simp only [totalBoxes_cons]
            push_cast
            push_cast at hrec
            omega
          · -- non-negative limit
            have hle : num ≤ limitedNum := by
              rcases hnum with h | h
              · exact absurd h hneg
              · exact h
            have hpos : 0 ≤ limitedNum := by omega
            obtain ⟨hlen, hsum⟩ := emitBoxes_nonneg limitedNum hpos p.cloudBoxes num hle
            have hnum' : limitedNum < 0 ∨
                (emitBoxes limitedNum num p.cloudBoxes).2 ≤ limitedNum := by
              right
              omega
            have hrec := ih (emitBoxes limitedNum num p.cloudBoxes).2
              ⟨p.pfx, p.nextMarker⟩ hnum' htrunc' hrest hlast'
            rw [if_neg hneg] at hrec ⊢
            simp only [totalBoxes_cons]
            push_cast
            omega
        · -- the page is not truncated: it is the last one
          have hrest : rest = [] := by
            by_contra hrest
            have : p ∈ (p :: rest).dropLast := by
              rw [List.dropLast_cons_of_ne_nil hrest]
              exact List.mem_cons_self _ _
            exact htp (htrunc p this)
          subst hrest
          have htpf : p.isTruncated = false := by
            cases h : p.isTruncated
            · rfl
            · exact absurd h htp
          simp only [List.map_cons, List.map_nil, lcbLoop, if_pos henter, htpf,
            if_false, Bool.false_eq_true, printedRows_cons, printedRows_append,
            printedRows_map_row, printedRows_headerEvs, isRowEvent]
          by_cases hneg : limitedNum < 0
          · have hemit := emitBoxes_neg limitedNum hneg p.cloudBoxes num
            rw [if_pos hneg, hemit]
            simp
          · have hle : num ≤ limitedNum := by
              rcases hnum with h | h
              · exact absurd h hneg
              · exact h
            have hpos : 0 ≤ limitedNum := by omega
            obtain ⟨hlen, hsum⟩ := emitBoxes_nonneg limitedNum hpos p.cloudBoxes num hle
            rw [if_neg hneg]
            simp only [totalBoxes_cons, totalBoxes_nil]
            push_cast
            omega
      · -- loop not entered: the limit is already reached
        have h0 : ¬limitedNum < 0 := fun h => henter (Or.inl h)
        have h1 : num = limitedNum := by
          rcases hnum with h | h
          · exact absurd h h0
          · omega
        simp only [lcbLoop, if_neg henter, printedRows_nil]
        rw [if_neg h0]
        have : (0 : Int) ≤ (totalBoxes (p :: rest) : Int) := by positivity
        omega

/-- If the `j`-th page fetch of the listing loop succeeds with a
non-truncated page and at least `j+1` requests happen, then exactly `j+1`
requests happen: no request follows a non-truncated page. -/
theorem lcbLoop_requests_stop (limitedNum : Int) :
    ∀ (pages : List (Except String ListCloudBoxResult)) (num : Int)
      (opts : ListOptions) (j : Nat) (p : ListCloudBoxResult),
      pages[j]? = some (.ok p) → p.isTruncated = false →
      j < requestCount (lcbLoop limitedNum pages num opts).2 →
      requestCount (lcbLoop limitedNum pages num opts).2 = j + 1 := by
  intro pages
  induction pages with
  | nil =>
      intro num opts j p hj _ _
      simp at hj
  | cons q rest ih =>
      intro num opts j p hj hp hreq
      by_cases henter : limitedNum < 0 ∨ num < limitedNum
      · rcases q with e | lcr
        · -- page fetch failed: one request, and the failed slot holds no page
          simp only [lcbLoop, if_pos henter, requestCount_cons,
            isRequestEvent, requestCount_nil, if_true] at hreq ⊢
          have hj0 : j = 0 := by omega
          subst hj0
          simp at hj
        · by_cases ht : lcr.isTruncated = true
          · simp only [lcbLoop, if_pos henter, ht, if_true, requestCount_cons,
              requestCount_append, requestCount_map_row, requestCount_headerEvs,
              isRequestEvent] at hreq ⊢
            cases j with
            | zero =>
                simp at hj
                rw [← hj] at hp
                rw [ht] at hp
                exact Bool.noConfusion hp
            | succ j' =>
                simp only [List.getElem?_cons_succ] at hj
                have := ih (emitBoxes limitedNum num lcr.cloudBoxes).2
                  ⟨lcr.pfx, lcr.nextMarker⟩ j' p hj hp (by omega)
                omega
          · have htf : lcr.isTruncated = false := by
              cases h : lcr.isTruncated
              · rfl
              · exact absurd h ht
            simp only [lcbLoop, if_pos henter, htf, if_false,
              Bool.false_eq_true, requestCount_cons, requestCount_append,
              requestCount_map_row, requestCount_headerEvs,
              isRequestEvent, if_true] at hreq ⊢
            omega
      · exfalso
        unfold lcbLoop at hreq
        rw [if_neg henter] at hreq
        simp at hreq

/-- The trace of one `lcb` run is empty (a pre-client validation failed),
just the client construction (which failed), or the client construction
followed by the loop's trace. -/
theorem lcbRunCommand_trace_cases (env : LcbEnv) :
    (lcbRunCommand env).2 = [] ∨ (lcbRunCommand env).2 = [.clientBuild] ∨
    ∃ pre, (lcbRunCommand env).2
        = .clientBuild :: (lcbLoop env.limitedNum env.pages 0 ⟨pre, env.vmarker⟩).2 := by
  obtain ⟨argUrl, limitedNum, vmarker, clientResult, pages⟩ := env
  rcases argUrl with _ | u
  · cases hm : getRawMarker vmarker with
    | error e => left; simp [lcbRunCommand, hm]
    | ok d =>
        cases clientResult with
        | error e => right; left; simp [lcbRunCommand, hm]
        | ok u => right; right; exact ⟨"", by simp [lcbRunCommand, hm]⟩
  · rcases u with e | u
    · left
      simp [lcbRunCommand]
    · cases hm : getRawMarker vmarker with
      | error e => left; simp [lcbRunCommand, hm]
      | ok d =>
          cases clientResult with
          | error e => right; left; simp [lcbRunCommand, hm]
          | ok w => right; right; exact ⟨u.bucket, by simp [lcbRunCommand, hm]⟩

/-- C3: over an all-successful page sequence whose last page is the only
non-truncated one, a run with limit `N ≥ 0` prints exactly
`min N (total items)` item rows, and a run with a negative limit prints all
items. -/
theorem lcb_limit_row_count (env : LcbEnv) (ps : List ListCloudBoxResult)
    (d : String)
    (hpages : env.pages = ps.map Except.ok)
    (hmark : getRawMarker env.vmarker = .ok d)
    (harg : ∀ u : String, env.argUrl ≠ some (.error u))
    (hclient : env.clientResult = .ok ())
    (hne : ps ≠ [])
    (htrunc : ∀ p ∈ ps.dropLast, p.isTruncated = true)
    (hlast : (ps.getLast hne).isTruncated = false) :
    (printedRows (lcbRunCommand env).2 : Int)
      = if env.limitedNum < 0 then (totalBoxes ps : Int)
        else min env.limitedNum (totalBoxes ps) := by
  obtain ⟨argUrl, limitedNum, vmarker, clientResult, pages⟩ := env
  dsimp only at hpages hmark harg hclient ⊢
  subst hclient hpages
  have hnum0 : limitedNum < 0 ∨ (0 : Int) ≤ limitedNum := by omega
  have hmin : limitedNum - 0 = limitedNum := by ring
  rcases argUrl with _ | u
  · have hrows := lcbLoop_rows limitedNum ps 0 ⟨"", vmarker⟩ hnum0 htrunc hne hlast
    simp only [lcbRunCommand, hmark, printedRows_cons, isRowEvent, if_false]
    rw [hmin] at hrows
    simpa using hrows
  · rcases u with e | u
    · exact absurd rfl (harg e)
    · have hrows := lcbLoop_rows limitedNum ps 0 ⟨u.bucket, vmarker⟩ hnum0 htrunc hne hlast
      simp only [lcbRunCommand, hmark, printedRows_cons, isRowEvent, if_false]
      rw [hmin] at hrows
      simpa using hrows

theorem lcb_limit_row_count_witness :
    (printedRows (lcbRunCommand
        ⟨none, 2, "", .ok (),
         [.ok ⟨"", "m1", [⟨"a", "", "", "", "", ""⟩, ⟨"b", "", "", "", "", ""⟩], true⟩,
          .ok ⟨"", "", [⟨"c", "", "", "", "", ""⟩], false⟩]⟩).2 : Int)
      = if (2 : Int) < 0
        then (totalBoxes [⟨"", "m1", [⟨"a", "", "", "", "", ""⟩, ⟨"b", "", "", "", "", ""⟩], true⟩,
                          ⟨"", "", [⟨"c", "", "", "", "", ""⟩], false⟩] : Int)
        else min 2 (totalBoxes [⟨"", "m1", [⟨"a", "", "", "", "", ""⟩, ⟨"b", "", "", "", "", ""⟩], true⟩,
                                ⟨"", "", [⟨"c", "", "", "", "", ""⟩], false⟩]) :=
  lcb_limit_row_count
    ⟨none, 2, "", .ok (),
     [.ok ⟨"", "m1", [⟨"a", "", "", "", "", ""⟩, ⟨"b", "", "", "", "", ""⟩], true⟩,
      .ok ⟨"", "", [⟨"c", "", "", "", "", ""⟩], false⟩]⟩
    [⟨"", "m1", [⟨"a", "", "", "", "", ""⟩, ⟨"b", "", "", "", "", ""⟩], true⟩,
     ⟨"", "", [⟨"c", "", "", "", "", ""⟩], false⟩] ""
    rfl rfl (fun u h => by cases h) rfl (by decide) (by decide) (by decide)

/-- C4: a marker option that is not URL-decodable makes the listing command
return an "invalid marker" error with an empty event trace, so the client is
not constructed and no listing request is issued. -/
theorem lcb_invalid_marker_rejected_early (env : LcbEnv) (e : String)
    (hmark : getRawMarker env.vmarker = .error e)
    (harg : ∀ u : String, env.argUrl ≠ some (.error u)) :
    (lcbRunCommand env).1
      = .error ("invalid marker: , marker is not url encoded, " ++ e)
    ∧ (lcbRunCommand env).2 = [] := by
  obtain ⟨argUrl, limitedNum, vmarker, clientResult, pages⟩ := env
  dsimp only at hmark harg ⊢
  rcases argUrl with _ | u
  · simp [lcbRunCommand, hmark]
  · rcases u with eu | u
    · exact absurd rfl (harg eu)
    · simp [lcbRunCommand, hmark]

theorem lcb_invalid_marker_rejected_early_witness :
    (lcbRunCommand ⟨none, -1, "%zz", .ok (), []⟩).1
      = .error ("invalid marker: , marker is not url encoded, invalid URL escape")
    ∧ (lcbRunCommand ⟨none, -1, "%zz", .ok (), []⟩).2 = [] :=
  lcb_invalid_marker_rejected_early ⟨none, -1, "%zz", .ok (), []⟩
    "invalid URL escape" rfl (fun u h => by cases h)

/-- C8: in any listing run, if the `j`-th issued page request returned a
successful page whose truncation flag is false, the run makes exactly `j+1`
page requests: the loop terminates after that page.  (In particular a run
whose first page is non-truncated makes exactly one request.) -/
theorem lcb_stops_on_untruncated_page (env : LcbEnv) (j : Nat)
    (p : ListCloudBoxResult)
    (hj : env.pages[j]? = some (.ok p))
    (hp : p.isTruncated = false)
    (hreq : j < requestCount (lcbRunCommand env).2) :
    requestCount (lcbRunCommand env).2 = j + 1 := by
  rcases lcbRunCommand_trace_cases env with htr | htr | ⟨pre, htr⟩
  · rw [htr] at hreq
    simp [requestCount] at hreq
  · rw [htr] at hreq
    simp [requestCount, isRequestEvent, List.countP_cons] at hreq
  · rw [htr] at hreq ⊢
    simp only [requestCount_cons, isRequestEvent, Bool.false_eq_true,
      if_false] at hreq ⊢
    have := lcbLoop_requests_stop env.limitedNum env.pages 0 ⟨pre, env.vmarker⟩
      j p hj hp (by omega)
    omega

theorem lcb_stops_on_untruncated_page_witness :
    ([(.ok ⟨"", "", [], false⟩ : Except String ListCloudBoxResult)][0]?
        = some (.ok ⟨"", "", [], false⟩))
    ∧ (⟨"", "", [], false⟩ : ListCloudBoxResult).isTruncated = false
    ∧ requestCount (lcbRunCommand
        ⟨none, -1, "", .ok (), [.ok ⟨"", "", [], false⟩]⟩).2 = 0 + 1 :=
  ⟨rfl, rfl,
    lcb_stops_on_untruncated_page ⟨none, -1, "", .ok (), [.ok ⟨"", "", [], false⟩]⟩
      0 ⟨"", "", [], false⟩ rfl rfl (by decide)⟩

/-- C9: when the marker option is URL-decodable, the decoded value is
discarded (Go shadows it inside the validation `if`, lcb.go:118), and the
first listing request carries the original, still-encoded marker string. -/
theorem lcb_marker_shadowing_uses_encoded (env : LcbEnv) (d : String)
    (hdec : getRawMarker env.vmarker = .ok d)
    (harg : ∀ u : String, env.argUrl ≠ some (.error u))
    (hclient : env.clientResult = .ok ())
    (hnum : env.limitedNum < 0 ∨ 0 < env.limitedNum)
    (hpages : env.pages ≠ []) :
    firstRequestMarker (lcbRunCommand env).2 = some env.vmarker := by
  obtain ⟨argUrl, limitedNum, vmarker, clientResult, pages⟩ := env
  dsimp only at hdec harg hclient hnum hpages ⊢
  subst hclient
  rcases pages with _ | ⟨pg, rest⟩
  · exact absurd rfl hpages
  · have main : ∀ pre : String,
        firstRequestMarker (lcbLoop limitedNum (pg :: rest) 0 ⟨pre, vmarker⟩).2
          = some vmarker := by
      intro pre
      unfold lcbLoop
      rw [if_pos hnum]
      rcases pg with e | lcr
      · simp [firstRequestMarker]
      · by_cases ht : lcr.isTruncated = true
        · simp [ht, firstRequestMarker]
        · simp only [Bool.not_eq_true] at ht
          simp [ht, firstRequestMarker]
    rcases argUrl with _ | u
    · simp only [lcbRunCommand, hdec]
      rw [firstRequestMarker]
      · exact main ""
      · exact fun o h => nomatch h
    · rcases u with e | u
      · exact absurd rfl (harg e)
      · simp only [lcbRunCommand, hdec]
        rw [firstRequestMarker]
        · exact main u.bucket
        · exact fun o h => nomatch h

theorem lcb_marker_shadowing_uses_encoded_witness :
    getRawMarker "a%41" = .ok "aA" ∧ "aA" ≠ "a%41" ∧
    firstRequestMarker (lcbRunCommand
        ⟨none, -1, "a%41", .ok (), [.error "transient"]⟩).2 = some "a%41" :=
  ⟨rfl, by decide,
    lcb_marker_shadowing_uses_encoded ⟨none, -1, "a%41", .ok (), [.error "transient"]⟩
      "aA" rfl (fun u h => by cases h) rfl (by norm_num) (by simp)⟩

/-! ## The append command `AppendFileCommand` (lib/append_file.go)

`RunCommand` (append_file.go:159-230) validates the cloud URL and the local
file, checks whether the object exists, rejects metadata on an existing
object, determines the start position (the parsed `Content-Length` for an
existing object, zero otherwise) and calls `AppendFromFile`
(append_file.go:232-266), which opens the local file, parses the metadata
options when present, and issues the append call at the given position.
`MaxAppendObjectSize` is a policy constant declared outside the files under
study, so the model is parametric in it. -/

/-- Decimal digit value, `none` for a non-digit. -/
def digitVal (c : Char) : Option Nat :=
  if '0' ≤ c ∧ c ≤ '9' then some (c.toNat - '0'.toNat) else none

/-- Parse a run of decimal digits (most significant first) onto `acc`. -/
def parseNatDigits : List Char → Nat → Option Nat
  | [], acc => some acc
  | c :: rest, acc =>
    match digitVal c with
    | some d => parseNatDigits rest (acc * 10 + d)
    | none => none

/-- `strconv.ParseInt(s, 10, 64)` (append_file.go:221): optional sign, at
least one decimal digit, 64-bit signed range check. -/
def parseInt64 (s : String) : Except String Int :=
  let signed : Bool × List Char :=
    match s.toList with
    | '-' :: rest => (true, rest)
    | '+' :: rest => (false, rest)
    | cs => (false, cs)
  match signed.2 with
  | [] => .error "invalid syntax"
  | ds =>
    match parseNatDigits ds 0 with
    | none => .error "invalid syntax"
    | some n =>
      let v : Int := if signed.1 then -(n : Int) else (n : Int)
      if v < -(2 ^ 63) ∨ 2 ^ 63 - 1 < v then .error "value out of range"
      else .ok v

/-- Result of `os.Stat`: the fields the command reads. -/
structure FileStat where
  isDir : Bool
  size : Int
deriving DecidableEq, Repr

/-- Observable steps of the append command, in program order. -/
inductive AppendEvent where
  | clientBuild
  | isExistCheck
  | getObjectMeta
  | openFile
  | appendObject (position : Int)
deriving DecidableEq, Repr

/-- Whether an event is a call to the storage service. -/
def isNetworkEvent : AppendEvent → Bool
  | .isExistCheck => true
  | .getObjectMeta => true
  | .appendObject _ => true
  | _ => false

/-- Environment of one `appendfromfile` run: oracle outcomes of the
external calls, in the order the code makes them. -/
structure AppendEnv where
  fileName : String
  ossMeta : String
  cloudUrl : Except String CloudUrl
  statResult : Except String FileStat
  clientResult : Except String Unit
  bucketResult : Except String Unit
  isObjectExist : Except String Bool
  contentLength : Except String String
  openFileResult : Except String Unit
  parseMetaResult : Except String Unit
  appendResult : Int → Except String Int

/-- `AppendFileCommand.AppendFromFile` (append_file.go:232-266): open the
local file, parse the metadata options when `--meta` was supplied, then
issue the append call at `position`. -/
def AppendFromFile (env : AppendEnv) (position : Int) :
    Except String Unit × List AppendEvent :=
  match env.openFileResult with
  | .error e => (.error e, [.openFile])
  | .ok _ =>
    match (if env.ossMeta ≠ "" then env.parseMetaResult else .ok ()) with
    | .error e => (.error e, [.openFile])
    | .ok _ =>
      match env.appendResult position with
      | .error e => (.error e, [.openFile, .appendObject position])
      | .ok _ => (.ok (), [.openFile, .appendObject position])

/-- `AppendFileCommand.RunCommand` (append_file.go:159-230) as a function
from the environment to the returned error and the event trace;
`maxAppendObjectSize` is the `MaxAppendObjectSize` policy constant. -/
def appendRunCommand (maxAppendObjectSize : Int) (env : AppendEnv) :
    Except String Unit × List AppendEvent :=
  match env.cloudUrl with
  | .error e => (.error e, [])
  | .ok url =>
    if url.object = "" then (.error "object key is empty", [])
    else
      match env.statResult with
      | .error e => (.error e, [])
      | .ok stat =>
        if stat.isDir = true then (.error (env.fileName ++ " is dir"), [])
        else if maxAppendObjectSize < stat.size then
          (.error ("locafile:" ++ env.fileName ++ " is bigger than "
            ++ toString maxAppendObjectSize ++ ", it is not support by append"), [])
        else
          match env.clientResult with
          | .error e => (.error e, [.clientBuild])
          | .ok _ =>
            match env.bucketResult with
            | .error e => (.error e, [.clientBuild])
            | .ok _ =>
              match env.isObjectExist with
              | .error e => (.error e, [.clientBuild, .isExistCheck])
              | .ok isExist =>
                if isExist = true ∧ env.ossMeta ≠ "" then
                  (.error "setting meta on existing append object is not supported",
                   [.clientBuild, .isExistCheck])
                else if isExist = true then
                  match env.contentLength with
                  | .error e => (.error e, [.clientBuild, .isExistCheck, .getObjectMeta])
                  | .ok s =>
                    match parseInt64 s with
                    | .error e =>
                        (.error e, [.clientBuild, .isExistCheck, .getObjectMeta])
                    | .ok position =>
                      let r := AppendFromFile env position
                      (r.1, [.clientBuild, .isExistCheck, .getObjectMeta] ++ r.2)
                else
                  let r := AppendFromFile env 0
                  (r.1, [.clientBuild, .isExistCheck] ++ r.2)

/-- C1 counterexample: with an existing remote object and a non-empty
`--meta` option the command does return the meta-rejection error, but a
network call (the existence check) has already been issued by then, so the
claim "fails validation with an error before any network call is made" is
false at this input. -/
theorem appendMeta_network_call_counterexample :
    (appendRunCommand 100
        ⟨"f.txt", "k:v", .ok ⟨"b", "o"⟩, .ok ⟨false, 10⟩, .ok (), .ok (),
         .ok true, .ok "5", .ok (), .ok (), fun p => .ok (p + 10)⟩).1
      = .error "setting meta on existing append object is not supported"
    ∧ ¬ (∀ e ∈ (appendRunCommand 100
        ⟨"f.txt", "k:v", .ok ⟨"b", "o"⟩, .ok ⟨false, 10⟩, .ok (), .ok (),
         .ok true, .ok "5", .ok (), .ok (), fun p => .ok (p + 10)⟩).2,
        isNetworkEvent e = false) := by
  constructor
  · rfl
  · intro h
    have := h .isExistCheck (by decide)
    exact Bool.noConfusion this

/-- C1 (amended): if the remote object exists and `--meta` is non-empty,
the command fails with the meta-rejection error immediately after the
existence check: the trace is exactly the client construction and the
existence check, so the metadata fetch, the file open and the append call
never happen. -/
theorem appendMeta_rejected_after_exist_check (maxAppendObjectSize : Int)
    (env : AppendEnv) (url : CloudUrl) (stat : FileStat)
    (hurl : env.cloudUrl = .ok url) (hobj : url.object ≠ "")
    (hstat : env.statResult = .ok stat) (hdir : stat.isDir = false)
    (hsize : stat.size ≤ maxAppendObjectSize)
    (hclient : env.clientResult = .ok ()) (hbucket : env.bucketResult = .ok ())
    (hexist : env.isObjectExist = .ok true) (hmeta : env.ossMeta ≠ "") :
    (appendRunCommand maxAppendObjectSize env).1
      = .error "setting meta on existing append object is not supported"
    ∧ (appendRunCommand maxAppendObjectSize env).2
      = [.clientBuild, .isExistCheck] := by
  have hns : ¬ maxAppendObjectSize < stat.size := by omega
  simp [appendRunCommand, hurl, hobj, hstat, hdir, hns, hclient, hbucket,
    hexist, hmeta]

theorem appendMeta_rejected_after_exist_check_witness :
    (appendRunCommand 100
        ⟨"f.txt", "k:v", .ok ⟨"b", "o"⟩, .ok ⟨false, 10⟩, .ok (), .ok (),
         .ok true, .ok "5", .ok (), .ok (), fun p => .ok (p + 10)⟩).1
      = .error "setting meta on existing append object is not supported"
    ∧ (appendRunCommand 100
        ⟨"f.txt", "k:v", .ok ⟨"b", "o"⟩, .ok ⟨false, 10⟩, .ok (), .ok (),
         .ok true, .ok "5", .ok (), .ok (), fun p => .ok (p + 10)⟩).2
      = [.clientBuild, .isExistCheck] :=
  appendMeta_rejected_after_exist_check 100
    ⟨"f.txt", "k:v", .ok ⟨"b", "o"⟩, .ok ⟨false, 10⟩, .ok (), .ok (),
     .ok true, .ok "5", .ok (), .ok (), fun p => .ok (p + 10)⟩
    ⟨"b", "o"⟩ ⟨false, 10⟩ rfl (by decide) rfl rfl (by norm_num) rfl rfl rfl
    (by decide)

/-- C5: a local file whose stat-reported size exceeds the maximum append
object size makes the command fail validation with an empty event trace:
in particular the file is never opened for upload. -/
theorem append_oversized_file_rejected (maxAppendObjectSize : Int)
    (env : AppendEnv) (url : CloudUrl) (stat : FileStat)
    (hurl : env.cloudUrl = .ok url) (hobj : url.object ≠ "")
    (hstat : env.statResult = .ok stat) (hdir : stat.isDir = false)
    (hsize : maxAppendObjectSize < stat.size) :
    (appendRunCommand maxAppendObjectSize env).1
      = .error ("locafile:" ++ env.fileName ++ " is bigger than "
          ++ toString maxAppendObjectSize ++ ", it is not support by append")
    ∧ (appendRunCommand maxAppendObjectSize env).2 = [] := by
  simp [appendRunCommand, hurl, hobj, hstat, hdir, hsize]

theorem append_oversized_file_rejected_witness :
    (appendRunCommand 100
        ⟨"big.bin", "", .ok ⟨"b", "o"⟩, .ok ⟨false, 101⟩, .ok (), .ok (),
         .ok false, .ok "0", .ok (), .ok (), fun p => .ok p⟩).1
      = .error ("locafile:" ++ "big.bin" ++ " is bigger than "
          ++ toString (100 : Int) ++ ", it is not support by append")
    ∧ (appendRunCommand 100
        ⟨"big.bin", "", .ok ⟨"b", "o"⟩, .ok ⟨false, 101⟩, .ok (), .ok (),
         .ok false, .ok "0", .ok (), .ok (), fun p => .ok p⟩).2 = [] :=
  append_oversized_file_rejected 100
    ⟨"big.bin", "", .ok ⟨"b", "o"⟩, .ok ⟨false, 101⟩, .ok (), .ok (),
     .ok false, .ok "0", .ok (), .ok (), fun p => .ok p⟩
    ⟨"b", "o"⟩ ⟨false, 101⟩ rfl (by decide) rfl rfl (by norm_num)

/-- C6: the starting append position is the parsed `Content-Length` of the
existing object, or zero when the object does not exist, and the append
call is issued at exactly that position: the trace is the pre-append calls
followed by the file open and the append call at that position. -/
theorem append_position_from_remote_length (maxAppendObjectSize : Int)
    (env : AppendEnv) (url : CloudUrl) (stat : FileStat) (b : Bool)
    (position : Int)
    (hurl : env.cloudUrl = .ok url) (hobj : url.object ≠ "")
    (hstat : env.statResult = .ok stat) (hdir : stat.isDir = false)
    (hsize : stat.size ≤ maxAppendObjectSize)
    (hclient : env.clientResult = .ok ()) (hbucket : env.bucketResult = .ok ())
    (hexist : env.isObjectExist = .ok b)
    (hmeta : b = true → env.ossMeta = "")
    (hpos : b = true → ∃ s, env.contentLength = .ok s
        ∧ parseInt64 s = .ok position)
    (hpos0 : b = false → position = 0)
    (hopen : env.openFileResult = .ok ())
    (hparse : env.parseMetaResult = .ok ()) :
    (appendRunCommand maxAppendObjectSize env).2
      = (if b then [.clientBuild, .isExistCheck, .getObjectMeta]
         else [.clientBuild, .isExistCheck])
        ++ [.openFile, .appendObject position] := by
  have hns : ¬ maxAppendObjectSize < stat.size := by omega
  cases b
  · have hp0 := hpos0 rfl
    subst hp0
    simp only [appendRunCommand, AppendFromFile, hurl, hstat, hclient,
      hbucket, hexist, hopen, hparse, if_neg hobj, hdir, Bool.false_eq_true,
      if_false, if_neg hns, ite_self]
    rcases ha : env.appendResult 0 with e | v <;> simp [ha]
  · have hm := hmeta rfl
    obtain ⟨s, hcl, hps⟩ := hpos rfl
    simp only [appendRunCommand, AppendFromFile, hurl, hstat, hclient,
      hbucket, hexist, hcl, hps, hopen, hparse, hm, if_neg hobj, hdir,
      Bool.false_eq_true, if_false, if_neg hns, ite_self]
    rcases ha : env.appendResult position with e | v <;> simp [ha, hm]

theorem append_position_from_remote_length_witness :
    (appendRunCommand 1000
        ⟨"f.txt", "", .ok ⟨"b", "o"⟩, .ok ⟨false, 10⟩, .ok (), .ok (),
         .ok true, .ok "42", .ok (), .ok (), fun p => .ok (p + 10)⟩).2
      = (if true then [.clientBuild, .isExistCheck, .getObjectMeta]
         else [.clientBuild, .isExistCheck])
        ++ [.openFile, .appendObject 42] :=
  append_position_from_remote_length 1000
    ⟨"f.txt", "", .ok ⟨"b", "o"⟩, .ok ⟨false, 10⟩, .ok (), .ok (),
     .ok true, .ok "42", .ok (), .ok (), fun p => .ok (p + 10)⟩
    ⟨"b", "o"⟩ ⟨false, 10⟩ true 42 rfl (by decide) rfl rfl (by norm_num)
    rfl rfl rfl (fun _ => rfl) (fun _ => ⟨"42", rfl, by rfl⟩)
    (fun h => Bool.noConfusion h) rfl rfl

end Ossutil
